import Mathlib

/-!
Verification of `scripts/cleanup-test-data.py`: a script that logs in,
lists projects, filters out the baseline project, and deletes the rest
one by one with per-item error handling.

The script is embedded shallowly.  The environment (the HTTP service)
is a record `Env` giving the result of the login call, the result of
the listing call, and, for each delete attempt (numbered in order of
issue), whether `urlopen` succeeds or raises.  The function `run`
returns the ordered trace of HTTP requests the script issues, the
ordered list of lines it prints, and `some msg` when an uncaught
exception aborts the run (`none` when it terminates normally, which is
exit status 0).

JSON project records are modelled with optional `id` and `name`
fields; `none` models a mapping that lacks the key, so that the
`KeyError` a subscript raises can be modelled (`Except.error` /
the `some msg` component).
-/

namespace Cleanup

/-- `BASE` in the script: the configured base URL. -/
def BASE : String := "http://localhost:3002"

/-- The hard-coded baseline project id from line 24 of the script. -/
def baselineId : String := "test-project-id"

/-- A project record from the listing JSON: the `id` and `name` keys may be
absent (`none`); other keys are irrelevant to the script. -/
structure ProjectRecord where
  id : Option String
  name : Option String
deriving DecidableEq, Repr

/-- Outcome the environment gives one `urlopen` delete attempt:
success, or an exception carrying its printed message. -/
inductive Outcome where
  | ok
  | exn (msg : String)
deriving DecidableEq, Repr

/-- An HTTP request the script can issue.  The login request has fixed body
and no auth header; the listing GET and each DELETE carry an
`Authorization` header value. -/
inductive Request where
  | login
  | listProjects (auth : String)
  | deleteProject (pid : String) (auth : String)
deriving DecidableEq, Repr

/-- The environment of one run: what the service answers.
`deleteResult k` is the outcome of the k-th delete attempt (0-based). -/
structure Env where
  loginResult : Except String String
  listResult : Except String (List ProjectRecord)
  deleteResult : Nat → Outcome

/-- The `Authorization` header value built by the f-string
`f"Bearer \x7btoken\x7d"`. -/
def bearer (token : String) : String := "Bearer " ++ token

/-- Line 24: `to_delete = [p for p in projects if p["id"] != "test-project-id"]`.
The comprehension evaluates left to right; the first record lacking an
`id` key raises a `KeyError` that aborts the run. -/
def filterProjects : List ProjectRecord → Except String (List ProjectRecord)
  | [] => Except.ok []
  | p :: ps =>
    match p.id with
    | none => Except.error "KeyError: id"
    | some i =>
      match filterProjects ps with
      | Except.error e => Except.error e
      | Except.ok rest =>
        Except.ok (if i = baselineId then rest else p :: rest)

/-- Lines 27-39: the delete loop.  For each record: read `p["id"]` and
`p["name"]` (a missing key raises outside the `try`), issue the DELETE,
and print the per-item outcome; an exception from `urlopen` is caught
and logged.  Returns (requests issued, lines printed, uncaught error).
`k` numbers the delete attempts for the environment. -/
def deleteLoop (token : String) (delRes : Nat → Outcome) :
    List ProjectRecord → Nat → List Request × List String × Option String
  | [], _ => ([], [], none)
  | p :: ps, k =>
    match p.id with
    | none => ([], [], some "KeyError: id")
    | some pid =>
      match p.name with
      | none => ([], [], some "KeyError: name")
      | some name =>
        let rest := deleteLoop token delRes ps (k + 1)
        match delRes k with
        | Outcome.ok =>
          (Request.deleteProject pid (bearer token) :: rest.1,
           ("  Deleted: " ++ name ++ " (" ++ pid ++ ")") :: rest.2.1,
           rest.2.2)
        | Outcome.exn e =>
          (Request.deleteProject pid (bearer token) :: rest.1,
           ("  Failed to delete " ++ name ++ ": " ++ e) :: rest.2.1,
           rest.2.2)

/-- The whole of `main` (lines 9-41): login, list, filter, print the count,
run the delete loop, print the completion marker.  Returns the request
trace, the printed lines, and the uncaught exception if any. -/
def run (env : Env) : List Request × List String × Option String :=
  match env.loginResult with
  | Except.error e => ([Request.login], [], some e)
  | Except.ok token =>
    match env.listResult with
    | Except.error e =>
      ([Request.login, Request.listProjects (bearer token)], [], some e)
    | Except.ok projects =>
      match filterProjects projects with
      | Except.error e =>
        ([Request.login, Request.listProjects (bearer token)], [], some e)
      | Except.ok toDelete =>
        let found :=
          "Found " ++ toString toDelete.length ++
            " non-seeded projects to clean up"
        let r := deleteLoop token env.deleteResult toDelete 0
        match r.2.2 with
        | some e =>
          (Request.login :: Request.listProjects (bearer token) :: r.1,
           found :: r.2.1, some e)
        | none =>
          (Request.login :: Request.listProjects (bearer token) :: r.1,
           found :: r.2.1 ++ ["Cleanup complete"], none)

/-- Specification-side: the delete request the loop issues for one record
(fields known present read off with a default). -/
def deleteRequests (token : String) (l : List ProjectRecord) : List Request :=
  l.map (fun p => Request.deleteProject (p.id.getD "") (bearer token))

/-- Specification-side: the line the loop prints for each record, given
the per-attempt outcomes. -/
def deleteLines (delRes : Nat → Outcome) :
    List ProjectRecord → Nat → List String
  | [], _ => []
  | p :: ps, k =>
    (match delRes k with
     | Outcome.ok =>
        "  Deleted: " ++ p.name.getD "" ++ " (" ++ p.id.getD "" ++ ")"
     | Outcome.exn e =>
        "  Failed to delete " ++ p.name.getD "" ++ ": " ++ e)
      :: deleteLines delRes ps (k + 1)

/-- All records in a list carry both keys the loop reads. -/
def goodRecords (l : List ProjectRecord) : Prop :=
  ∀ p ∈ l, p.id.isSome ∧ p.name.isSome

instance (l : List ProjectRecord) : Decidable (goodRecords l) :=
  inferInstanceAs (Decidable (∀ p ∈ l, p.id.isSome ∧ p.name.isSome))

/-- Sample environment for the scenario of claim C7 and several witnesses:
listing holds the seed record plus `p1` and `p2`, all deletes succeed. -/
def envHappy : Env where
  loginResult := Except.ok "tok7"
  listResult := Except.ok
    [⟨some "test-project-id", some "Seed"⟩,
     ⟨some "p1", some "A"⟩, ⟨some "p2", some "B"⟩]
  deleteResult := fun _ => Outcome.ok

/-- Sample environment whose login fails. -/
def envLoginFail : Env where
  loginResult := Except.error "HTTP Error 401"
  listResult := Except.ok []
  deleteResult := fun _ => Outcome.ok

/-- Sample environment whose listing fails after a good login. -/
def envListFail : Env where
  loginResult := Except.ok "tokL"
  listResult := Except.error "HTTP Error 500"
  deleteResult := fun _ => Outcome.ok

/-- Sample environment where the delete of `p1` raises and the delete of
`p2` succeeds. -/
def envOneFail : Env where
  loginResult := Except.ok "tokF"
  listResult := Except.ok
    [⟨some "test-project-id", some "Seed"⟩,
     ⟨some "p1", some "A"⟩, ⟨some "p2", some "B"⟩]
  deleteResult := fun k => if k = 0 then Outcome.exn "timed out" else Outcome.ok

/-- Sample environment whose listing holds only the baseline project. -/
def envOnlySeed : Env where
  loginResult := Except.ok "tokS"
  listResult := Except.ok [⟨some "test-project-id", some "Seed"⟩]
  deleteResult := fun _ => Outcome.ok

/-- Sample environment whose second non-baseline record lacks a `name`. -/
def envBadRecord : Env where
  loginResult := Except.ok "tokB"
  listResult := Except.ok
    [⟨some "p1", some "A"⟩, ⟨some "p2", none⟩, ⟨some "p3", some "C"⟩]
  deleteResult := fun _ => Outcome.ok

/-- Same environment as `envHappy`, written with syntactically different
field values, for the determinism claim. -/
def envHappyTwin : Env where
  loginResult := Except.ok ("tok" ++ "7")
  listResult := Except.ok
    ([⟨some "test-project-id", some "Seed"⟩] ++
     [⟨some "p1", some "A"⟩, ⟨some "p2", some "B"⟩])
  deleteResult := fun k => if k < k + 1 then Outcome.ok else Outcome.exn "x"

/-! helper lemmas -/

/-- When every record carries an `id` key, the comprehension is exactly
`List.filter` on ids differing from the baseline id. -/
theorem filterProjects_eq_filter (l : List ProjectRecord)
    (h : ∀ p ∈ l, p.id.isSome) :
    filterProjects l =
      Except.ok (l.filter (fun p => decide (p.id ≠ some baselineId))) := by
  induction l with
  | nil => rfl
  | cons p ps ih =>
    obtain ⟨i, hi⟩ := Option.isSome_iff_exists.mp (h p (by simp))
    have hps := ih (fun q hq => h q (by simp [hq]))
    by_cases hb : i = baselineId <;>
      simp [filterProjects, hi, hps, List.filter, hb]

/-- Every record the comprehension keeps has an `id` key and it differs
from the baseline id. -/
theorem filterProjects_mem_id (l res : List ProjectRecord)
    (h : filterProjects l = Except.ok res) :
    ∀ p ∈ res, ∀ i, p.id = some i → i ≠ baselineId := by
  induction l generalizing res with
  | nil =>
    simp only [filterProjects, Except.ok.injEq] at h
    subst h; simp
  | cons p ps ih =>
    simp only [filterProjects] at h
    cases hid : p.id with
    | none => rw [hid] at h; exact absurd h (by simp)
    | some i =>
      rw [hid] at h
      cases hrec : filterProjects ps with
      | error e => rw [hrec] at h; exact absurd h (by simp)
      | ok rest =>
        rw [hrec] at h
        simp only [Except.ok.injEq] at h
        by_cases hb : i = baselineId
        · rw [if_pos hb] at h; subst h
          exact ih rest hrec
        · rw [if_neg hb] at h; subst h
          intro q hq j hj
          rcases List.mem_cons.mp hq with hq | hq
          · subst hq; rw [hid] at hj
            exact (Option.some.injEq _ _ ▸ hj : i = j) ▸ hb
          · exact ih rest hrec q hq j hj

/-- On a list of well-formed records the delete loop issues one request per
record, prints one outcome line per record, and raises nothing. -/
theorem deleteLoop_good (token : String) (delRes : Nat → Outcome)
    (l : List ProjectRecord) (k : Nat) (h : goodRecords l) :
    deleteLoop token delRes l k =
      (deleteRequests token l, deleteLines delRes l k, none) := by
  induction l generalizing k with
  | nil => rfl
  | cons p ps ih =>
    obtain ⟨hid, hname⟩ := h p (by simp)
    obtain ⟨i, hi⟩ := Option.isSome_iff_exists.mp hid
    obtain ⟨n, hn⟩ := Option.isSome_iff_exists.mp hname
    have hps := ih (k + 1) (fun q hq => h q (by simp [hq]))
    cases hdel : delRes k <;>
      simp [deleteLoop, hi, hn, hps, hdel, deleteRequests, deleteLines]

/-- Every delete request the loop emits stems from a record of its input
list whose `id` is that request's project id, and carries the bearer
header of the loop's token. -/
theorem deleteLoop_mem_req (token : String) (delRes : Nat → Outcome)
    (l : List ProjectRecord) (k : Nat) (pid a : String)
    (h : Request.deleteProject pid a ∈ (deleteLoop token delRes l k).1) :
    (∃ p ∈ l, p.id = some pid) ∧ a = bearer token := by
  induction l generalizing k with
  | nil => exact absurd h (by simp [deleteLoop])
  | cons p ps ih =>
    cases hid : p.id with
    | none => rw [deleteLoop, hid] at h; exact absurd h (by simp)
    | some i =>
      cases hname : p.name with
      | none => rw [deleteLoop, hid, hname] at h; exact absurd h (by simp)
      | some n =>
        rw [deleteLoop, hid, hname] at h
        cases hdel : delRes k <;> rw [hdel] at h <;>
          simp only [List.mem_cons, Request.deleteProject.injEq] at h <;>
        · rcases h with ⟨h1, h2⟩ | h
          · exact ⟨⟨p, by simp, by rw [hid, h1]⟩, h2⟩
          · obtain ⟨⟨q, hq, hqi⟩, ha⟩ := ih (k + 1) h
            exact ⟨⟨q, by simp [hq], hqi⟩, ha⟩

/-- A string whose first character is not `C` is not the completion
marker line. -/
theorem ne_cleanup_of_head (s : String) (c : Char)
    (h : s.data.head? = some c) (hc : c ≠ 'C') :
    s ≠ "Cleanup complete" := by
  intro he
  subst he
  simp only [show ("Cleanup complete").data.head? = some 'C' from rfl,
    Option.some.injEq] at h
  exact hc h.symm

/-- Every request the loop emits is a DELETE for the id of some record of
its input list, carrying the bearer header of the loop's token. -/
theorem deleteLoop_req_form (token : String) (delRes : Nat → Outcome)
    (l : List ProjectRecord) (k : Nat) :
    ∀ r ∈ (deleteLoop token delRes l k).1,
      ∃ pid, (∃ p ∈ l, p.id = some pid) ∧
        r = Request.deleteProject pid (bearer token) := by
  induction l generalizing k with
  | nil => simp [deleteLoop]
  | cons p ps ih =>
    intro r hr
    cases hid : p.id with
    | none => rw [deleteLoop, hid] at hr; exact absurd hr (by simp)
    | some i =>
      cases hname : p.name with
      | none => rw [deleteLoop, hid, hname] at hr; exact absurd hr (by simp)
      | some n =>
        rw [deleteLoop, hid, hname] at hr
        cases hdel : delRes k <;> rw [hdel] at hr <;>
          simp only [List.mem_cons] at hr <;>
        · rcases hr with hr | hr
          · exact ⟨i, ⟨p, by simp, hid⟩, hr⟩
          · obtain ⟨pid, ⟨q, hq, hqi⟩, hform⟩ := ih (k + 1) r hr
            exact ⟨pid, ⟨q, by simp [hq], hqi⟩, hform⟩

/-- The request trace of a run has one of three shapes: login only (login
failed), login and listing (listing or the comprehension raised), or
login, listing and the delete loop's requests. -/
theorem run_trace_shape (env : Env) :
    (∃ e, env.loginResult = Except.error e ∧ (run env).1 = [Request.login]) ∨
    ∃ token, env.loginResult = Except.ok token ∧
      ((run env).1 = [Request.login, Request.listProjects (bearer token)] ∨
       ∃ projects toDelete,
         env.listResult = Except.ok projects ∧
         filterProjects projects = Except.ok toDelete ∧
         (run env).1 = Request.login :: Request.listProjects (bearer token) ::
           (deleteLoop token env.deleteResult toDelete 0).1) := by
  cases hlogin : env.loginResult with
  | error e => exact Or.inl ⟨e, rfl, by simp [run, hlogin]⟩
  | ok token =>
    refine Or.inr ⟨token, rfl, ?_⟩
    cases hlist : env.listResult with
    | error e => exact Or.inl (by simp [run, hlogin, hlist])
    | ok projects =>
      cases hfil : filterProjects projects with
      | error e => exact Or.inl (by simp [run, hlogin, hlist, hfil])
      | ok toDelete =>
        refine Or.inr ⟨projects, toDelete, rfl, hfil, ?_⟩
        cases hdl : (deleteLoop token env.deleteResult toDelete 0).2.2 <;>
          simp [run, hlogin, hlist, hfil, hdl]

/-- On a well-formed filtered list the whole run is the happy-path trace:
all three request kinds, the count line, one line per record, the
completion marker, normal exit. -/
theorem run_good (env : Env) (token : String)
    (projects toDelete : List ProjectRecord)
    (hlogin : env.loginResult = Except.ok token)
    (hlist : env.listResult = Except.ok projects)
    (hfilter : filterProjects projects = Except.ok toDelete)
    (hgood : goodRecords toDelete) :
    run env =
      (Request.login :: Request.listProjects (bearer token) ::
         deleteRequests token toDelete,
       ("Found " ++ toString toDelete.length ++
          " non-seeded projects to clean up")
         :: deleteLines env.deleteResult toDelete 0 ++ ["Cleanup complete"],
       none) := by
  have hdl := deleteLoop_good token env.deleteResult toDelete 0 hgood
  simp [run, hlogin, hlist, hfilter, hdl]

/-- The delete loop on a list whose first malformed record sits after a
well-formed block stops at that record: requests and lines for the block
only, and an uncaught `KeyError`. -/
theorem deleteLoop_bad (token : String) (delRes : Nat → Outcome)
    (pre post : List ProjectRecord) (bad : ProjectRecord) (k : Nat)
    (hpre : goodRecords pre) (hbad : bad.id = none ∨ bad.name = none) :
    deleteLoop token delRes (pre ++ bad :: post) k =
      (deleteRequests token pre, deleteLines delRes pre k,
       some (if bad.id = none then "KeyError: id" else "KeyError: name")) := by
  induction pre generalizing k with
  | nil =>
    rcases hbad with h | h
    · simp [deleteLoop, h, deleteRequests, deleteLines]
    · cases hid : bad.id with
      | none => simp [deleteLoop, hid, deleteRequests, deleteLines]
      | some i => simp [deleteLoop, hid, h, deleteRequests, deleteLines]
  | cons q qs ih =>
    obtain ⟨hid, hname⟩ := hpre q (by simp)
    obtain ⟨i, hi⟩ := Option.isSome_iff_exists.mp hid
    obtain ⟨n, hn⟩ := Option.isSome_iff_exists.mp hname
    have hqs := ih (k + 1) (fun p hp => hpre p (by simp [hp]))
    cases hdel : delRes k <;>
      simp [deleteLoop, hi, hn, hqs, hdel, deleteRequests, deleteLines]

/-- The failure line of the record after a block of records is among the
loop's printed lines when its attempt raises. -/
theorem deleteLines_mem_exn (delRes : Nat → Outcome)
    (pre post : List ProjectRecord) (x : ProjectRecord) (k : Nat) (e : String)
    (hfail : delRes (k + pre.length) = Outcome.exn e) :
    ("  Failed to delete " ++ x.name.getD "" ++ ": " ++ e) ∈
      deleteLines delRes (pre ++ x :: post) k := by
  induction pre generalizing k with
  | nil =>
    simp only [List.length_nil, Nat.add_zero] at hfail
    simp [deleteLines, hfail]
  | cons q qs ih =>
    have hfail2 : delRes ((k + 1) + qs.length) = Outcome.exn e := by
      rw [show (k + 1) + qs.length = k + (q :: qs).length by simp; omega]
      exact hfail
    simpa [deleteLines] using Or.inr (ih (k + 1) hfail2)

/-- No line the loop prints is the completion marker (each starts with two
spaces). -/
theorem deleteLines_ne_cleanup (delRes : Nat → Outcome)
    (l : List ProjectRecord) (k : Nat) :
    "Cleanup complete" ∉ deleteLines delRes l k := by
  induction l generalizing k with
  | nil => simp [deleteLines]
  | cons p ps ih =>
    simp only [deleteLines, List.mem_cons, not_or]
    refine ⟨?_, ih (k + 1)⟩
    intro h
    cases hdel : delRes k <;> rw [hdel] at h <;>
      exact ne_cleanup_of_head _ ' '
        (by rw [String.data_append]; rfl) (by decide) h.symm

/-! claim theorems -/

/-- C1: in every run, no DELETE request in the issued trace targets a
project whose id equals the baseline id `"test-project-id"`: the baseline
project is never a deletion target. -/
theorem baseline_never_deleted (env : Env) (pid a : String)
    (h : Request.deleteProject pid a ∈ (run env).1) : pid ≠ baselineId := by
  rcases run_trace_shape env with ⟨e, _, htr⟩ |
    ⟨token, _, htr | ⟨projects, toDelete, _, hfil, htr⟩⟩
  · rw [htr] at h; exact absurd h (by simp)
  · rw [htr] at h; exact absurd h (by simp)
  · rw [htr] at h
    simp only [List.mem_cons] at h
    rcases h with h | h | h
    · exact absurd h (by simp)
    · exact absurd h (by simp)
    · obtain ⟨pid2, ⟨p, hp, hpid⟩, hform⟩ :=
        deleteLoop_req_form token env.deleteResult toDelete 0 _ h
      obtain ⟨h1, _⟩ := Request.deleteProject.inj hform
      exact h1 ▸ filterProjects_mem_id projects toDelete hfil p hp pid2 hpid

/-- C1 witness: in the happy-path environment, `p1` is a deletion target
and its id differs from the baseline id. -/
theorem baseline_never_deleted_witness :
    Request.deleteProject "p1" (bearer "tok7") ∈ (run envHappy).1 ∧
      "p1" ≠ baselineId :=
  ⟨by decide, baseline_never_deleted envHappy "p1" (bearer "tok7") (by decide)⟩

/-- C2: the filter (line 24) is a pure function of the listed sequence:
for every listing whose records carry an `id` key it returns exactly
`List.filter` of the records whose id differs from the baseline id — the
order-preserving subsequence excluding every baseline-id record and
keeping every other record. -/
theorem filter_exact_subsequence (l : List ProjectRecord)
    (h : ∀ p ∈ l, p.id.isSome) :
    filterProjects l =
      Except.ok (l.filter (fun p => decide (p.id ≠ some baselineId))) ∧
    (l.filter (fun p => decide (p.id ≠ some baselineId))).Sublist l :=
  ⟨filterProjects_eq_filter l h, List.filter_sublist l⟩

/-- C2 witness: the filter applied to a concrete three-record listing. -/
theorem filter_exact_subsequence_witness :
    filterProjects
      [⟨some "p1", some "A"⟩, ⟨some "test-project-id", some "Seed"⟩,
       ⟨some "p2", some "B"⟩] =
      Except.ok
        (([⟨some "p1", some "A"⟩, ⟨some "test-project-id", some "Seed"⟩,
           ⟨some "p2", some "B"⟩] : List ProjectRecord).filter
          (fun p => decide (p.id ≠ some baselineId))) ∧
    (([⟨some "p1", some "A"⟩, ⟨some "test-project-id", some "Seed"⟩,
       ⟨some "p2", some "B"⟩] : List ProjectRecord).filter
      (fun p => decide (p.id ≠ some baselineId))).Sublist
      [⟨some "p1", some "A"⟩, ⟨some "test-project-id", some "Seed"⟩,
       ⟨some "p2", some "B"⟩] :=
  filter_exact_subsequence _ (by decide)

/-- C3: when the DELETE attempt for a record `x` of the filtered sequence
raises, the exception is caught per-item: the failure line with the
record's name and the error is printed, the run still terminates normally,
and a DELETE request is issued for every record of the filtered sequence
(in particular every one after `x`). -/
theorem delete_failure_isolated (env : Env) (token : String)
    (projects toDelete pre post : List ProjectRecord) (x : ProjectRecord)
    (e : String)
    (hlogin : env.loginResult = Except.ok token)
    (hlist : env.listResult = Except.ok projects)
    (hfilter : filterProjects projects = Except.ok toDelete)
    (hgood : goodRecords toDelete)
    (hsplit : toDelete = pre ++ x :: post)
    (hfail : env.deleteResult pre.length = Outcome.exn e) :
    ("  Failed to delete " ++ x.name.getD "" ++ ": " ++ e) ∈ (run env).2.1 ∧
    (run env).2.2 = none ∧
    (run env).1 = Request.login :: Request.listProjects (bearer token) ::
      deleteRequests token toDelete := by
  have hrun := run_good env token projects toDelete hlogin hlist hfilter hgood
  refine ⟨?_, by rw [hrun], by rw [hrun]⟩
  rw [hrun]
  have hfail0 : env.deleteResult (0 + pre.length) = Outcome.exn e := by
    rwa [Nat.zero_add]
  have hmem := deleteLines_mem_exn env.deleteResult pre post x 0 e hfail0
  rw [hsplit]
  exact List.mem_cons_of_mem _ (List.mem_append_left _ hmem)

/-- C3 witness: in the environment where the delete of `p1` raises
`timed out`, the failure line is printed, the run completes, and `p2`
still gets its DELETE request. -/
theorem delete_failure_isolated_witness :
    ("  Failed to delete " ++
        (ProjectRecord.mk (some "p1") (some "A")).name.getD "" ++ ": " ++
        "timed out") ∈ (run envOneFail).2.1 ∧
    (run envOneFail).2.2 = none ∧
    (run envOneFail).1 = Request.login :: Request.listProjects (bearer "tokF") ::
      deleteRequests "tokF" [⟨some "p1", some "A"⟩, ⟨some "p2", some "B"⟩] :=
  delete_failure_isolated envOneFail "tokF"
    [⟨some "test-project-id", some "Seed"⟩, ⟨some "p1", some "A"⟩,
     ⟨some "p2", some "B"⟩]
    [⟨some "p1", some "A"⟩, ⟨some "p2", some "B"⟩]
    [] [⟨some "p2", some "B"⟩] ⟨some "p1", some "A"⟩ "timed out"
    rfl rfl rfl (by decide) rfl rfl

/-- C4: login failure makes the run abort with only the login request
issued, nothing printed and the error uncaught; a successful login
followed by a listing failure aborts with only the login and listing
requests issued, nothing printed and the error uncaught. -/
theorem fatal_login_listing (env : Env) :
    (∀ e, env.loginResult = Except.error e →
        run env = ([Request.login], [], some e)) ∧
    (∀ token e, env.loginResult = Except.ok token →
        env.listResult = Except.error e →
        run env =
          ([Request.login, Request.listProjects (bearer token)], [],
           some e)) := by
  constructor
  · intro e he
    simp [run, he]
  · intro token e ht he
    simp [run, ht, he]

/-- C4 witness: concrete login-failure and listing-failure environments. -/
theorem fatal_login_listing_witness :
    run envLoginFail = ([Request.login], [], some "HTTP Error 401") ∧
    run envListFail =
      ([Request.login, Request.listProjects (bearer "tokL")], [],
       some "HTTP Error 500") :=
  ⟨(fatal_login_listing envLoginFail).1 "HTTP Error 401" rfl,
   (fatal_login_listing envListFail).2 "tokL" "HTTP Error 500" rfl rfl⟩

/-- C5: whatever the per-item delete outcomes, once login, listing and
filtering succeed on well-formed records the run issues a DELETE for
every filtered record, prints `Cleanup complete` as its last line, and
terminates normally. -/
theorem cleanup_complete_after_all_attempts (env : Env) (token : String)
    (projects toDelete : List ProjectRecord)
    (hlogin : env.loginResult = Except.ok token)
    (hlist : env.listResult = Except.ok projects)
    (hfilter : filterProjects projects = Except.ok toDelete)
    (hgood : goodRecords toDelete) :
    (run env).1 = Request.login :: Request.listProjects (bearer token) ::
        deleteRequests token toDelete ∧
    (∃ ls, (run env).2.1 = ls ++ ["Cleanup complete"]) ∧
    (run env).2.2 = none := by
  have hrun := run_good env token projects toDelete hlogin hlist hfilter hgood
  exact ⟨by rw [hrun], ⟨_, by rw [hrun]⟩, by rw [hrun]⟩

/-- C5 witness: the environment where the delete of `p1` raises still ends
with `Cleanup complete` and a normal exit, after attempting both
deletions. -/
theorem cleanup_complete_witness :
    (run envOneFail).1 = Request.login ::
        Request.listProjects (bearer "tokF") ::
        deleteRequests "tokF" [⟨some "p1", some "A"⟩, ⟨some "p2", some "B"⟩] ∧
    (∃ ls, (run envOneFail).2.1 = ls ++ ["Cleanup complete"]) ∧
    (run envOneFail).2.2 = none :=
  cleanup_complete_after_all_attempts envOneFail "tokF"
    [⟨some "test-project-id", some "Seed"⟩, ⟨some "p1", some "A"⟩,
     ⟨some "p2", some "B"⟩]
    [⟨some "p1", some "A"⟩, ⟨some "p2", some "B"⟩]
    rfl rfl rfl (by decide)

/-- C6: when the filtered sequence is empty the run issues no DELETE call
and prints exactly the `Found 0` line followed by `Cleanup complete`. -/
theorem zero_nonbaseline_zero_deletes (env : Env) (token : String)
    (projects : List ProjectRecord)
    (hlogin : env.loginResult = Except.ok token)
    (hlist : env.listResult = Except.ok projects)
    (hfilter : filterProjects projects = Except.ok []) :
    run env = ([Request.login, Request.listProjects (bearer token)],
      ["Found 0 non-seeded projects to clean up", "Cleanup complete"],
      none) := by
  have hrun := run_good env token projects [] hlogin hlist hfilter
    (by intro p hp; exact absurd hp (by simp))
  rw [hrun]
  rfl

/-- C6 witness: the listing that holds only the baseline project. -/
theorem zero_nonbaseline_witness :
    run envOnlySeed = ([Request.login, Request.listProjects (bearer "tokS")],
      ["Found 0 non-seeded projects to clean up", "Cleanup complete"],
      none) :=
  zero_nonbaseline_zero_deletes envOnlySeed "tokS"
    [⟨some "test-project-id", some "Seed"⟩] rfl rfl rfl

/-- C7: for the listing `[seed, p1, p2]` the filtered sequence is the
records of `p1` and `p2` in that order, and the run issues exactly two
DELETE requests, first for `p1` and then for `p2`. -/
theorem scenario_seed_p1_p2 :
    filterProjects
      [⟨some "test-project-id", some "Seed"⟩, ⟨some "p1", some "A"⟩,
       ⟨some "p2", some "B"⟩] =
      Except.ok [⟨some "p1", some "A"⟩, ⟨some "p2", some "B"⟩] ∧
    (run envHappy).1 =
      [Request.login, Request.listProjects (bearer "tok7"),
       Request.deleteProject "p1" (bearer "tok7"),
       Request.deleteProject "p2" (bearer "tok7")] :=
  ⟨rfl, rfl⟩

/-- C8: when login returns a token, every listing request and every DELETE
request in the trace carries exactly the header value `Bearer <token>`
built from that one token. -/
theorem bearer_token_all_requests (env : Env) (token : String)
    (hlogin : env.loginResult = Except.ok token) :
    ∀ a pid,
      (Request.listProjects a ∈ (run env).1 → a = bearer token) ∧
      (Request.deleteProject pid a ∈ (run env).1 → a = bearer token) := by
  intro a pid
  rcases run_trace_shape env with ⟨e, he, _⟩ |
    ⟨token2, hok, htr | ⟨projects, toDelete, _, _, htr⟩⟩
  · rw [hlogin] at he; exact absurd he (by simp)
  · have htok : token2 = token := by
      rw [hlogin] at hok; exact (Except.ok.inj hok).symm
    subst htok
    rw [htr]
    constructor
    · intro h
      simp only [List.mem_cons, List.not_mem_nil, or_false] at h
      rcases h with h | h
      · exact absurd h (by simp)
      · exact Request.listProjects.inj h
    · intro h
      simp only [List.mem_cons, List.not_mem_nil, or_false] at h
      rcases h with h | h <;> exact absurd h (by simp)
  · have htok : token2 = token := by
      rw [hlogin] at hok; exact (Except.ok.inj hok).symm
    subst htok
    rw [htr]
    constructor
    · intro h
      simp only [List.mem_cons] at h
      rcases h with h | h | h
      · exact absurd h (by simp)
      · exact Request.listProjects.inj h
      · obtain ⟨pid2, _, hform⟩ :=
          deleteLoop_req_form token2 env.deleteResult toDelete 0 _ h
        exact absurd hform (by simp)
    · intro h
      simp only [List.mem_cons] at h
      rcases h with h | h | h
      · exact absurd h (by simp)
      · exact absurd h (by simp)
      · obtain ⟨pid2, _, hform⟩ :=
          deleteLoop_req_form token2 env.deleteResult toDelete 0 _ h
        exact (Request.deleteProject.inj hform).2

/-- C8 witness: the happy-path run, instantiated at the listing request's
header and at the DELETE of `p1`. -/
theorem bearer_token_witness :
    (Request.listProjects (bearer "tok7") ∈ (run envHappy).1 →
      bearer "tok7" = bearer "tok7") ∧
    (Request.deleteProject "p1" (bearer "tok7") ∈ (run envHappy).1 →
      bearer "tok7" = bearer "tok7") :=
  bearer_token_all_requests envHappy "tok7" rfl (bearer "tok7") "p1"

/-- C9: a record of the filtered sequence lacking an `id` or `name` key
raises a `KeyError` outside the per-item try: the run aborts with an
uncaught error, requests are issued only for the well-formed records
before it, and `Cleanup complete` is never printed. -/
theorem malformed_record_aborts (env : Env) (token : String)
    (projects toDelete pre post : List ProjectRecord) (bad : ProjectRecord)
    (hlogin : env.loginResult = Except.ok token)
    (hlist : env.listResult = Except.ok projects)
    (hfilter : filterProjects projects = Except.ok toDelete)
    (hsplit : toDelete = pre ++ bad :: post)
    (hpre : goodRecords pre)
    (hbad : bad.id = none ∨ bad.name = none) :
    (∃ msg, (run env).2.2 = some msg) ∧
    "Cleanup complete" ∉ (run env).2.1 ∧
    (run env).1 = Request.login :: Request.listProjects (bearer token) ::
      deleteRequests token pre := by
  subst hsplit
  have hdl := deleteLoop_bad token env.deleteResult pre post bad 0 hpre hbad
  have hrun : run env =
      (Request.login :: Request.listProjects (bearer token) ::
         deleteRequests token pre,
       ("Found " ++ toString (pre ++ bad :: post).length ++
          " non-seeded projects to clean up")
         :: deleteLines env.deleteResult pre 0,
       some (if bad.id = none then "KeyError: id" else "KeyError: name")) := by
    simp [run, hlogin, hlist, hfilter, hdl]
  refine ⟨⟨_, by rw [hrun]⟩, ?_, by rw [hrun]⟩
  rw [hrun]
  simp only [List.mem_cons, not_or]
  refine ⟨?_, deleteLines_ne_cleanup env.deleteResult pre 0⟩
  intro h
  exact ne_cleanup_of_head _ 'F'
    (by rw [String.data_append, String.data_append]; rfl) (by decide) h.symm

/-- C9 witness: the environment whose second non-baseline record lacks a
`name`: the run aborts after deleting only `p1`, without printing
`Cleanup complete`. -/
theorem malformed_record_witness :
    (∃ msg, (run envBadRecord).2.2 = some msg) ∧
    "Cleanup complete" ∉ (run envBadRecord).2.1 ∧
    (run envBadRecord).1 = Request.login ::
      Request.listProjects (bearer "tokB") ::
      deleteRequests "tokB" [⟨some "p1", some "A"⟩] :=
  malformed_record_aborts envBadRecord "tokB"
    [⟨some "p1", some "A"⟩, ⟨some "p2", none⟩, ⟨some "p3", some "C"⟩]
    [⟨some "p1", some "A"⟩, ⟨some "p2", none⟩, ⟨some "p3", some "C"⟩]
    [⟨some "p1", some "A"⟩] [⟨some "p3", some "C"⟩] ⟨some "p2", none⟩
    rfl rfl rfl rfl (by decide) (Or.inr rfl)

/-- C10: the run is a deterministic function of the service's responses:
two environments giving the same login result, the same listing and the
same outcome for each delete attempt yield the same request trace, the
same printed lines and the same exit. -/
theorem run_deterministic (env1 env2 : Env)
    (h1 : env1.loginResult = env2.loginResult)
    (h2 : env1.listResult = env2.listResult)
    (h3 : ∀ k, env1.deleteResult k = env2.deleteResult k) :
    run env1 = run env2 := by
  cases env1 with
  | mk a b c =>
    cases env2 with
    | mk a2 b2 c2 =>
      have ha : a = a2 := h1
      have hb : b = b2 := h2
      have hc : c = c2 := funext h3
      subst ha; subst hb; subst hc
      rfl

/-- C10 witness: two syntactically different but observationally equal
environments produce identical runs. -/
theorem run_deterministic_witness : run envHappy = run envHappyTwin :=
  run_deterministic envHappy envHappyTwin rfl rfl
    (fun k => by simp [envHappy, envHappyTwin])

end Cleanup
